import Mathlib

/-!
Verification of the Iterable MCP server's credential-lifecycle and
permission-gating core, shallowly embedded from the TypeScript source.

Embedded components:
* `src/tool-filter.ts` — the safe-list tool filter (`NON_PII_TOOLS`,
  `READ_ONLY_TOOLS`, `SEND_TOOLS`, `filterTools`);
* `src/config.ts` — `resolveAllowFlags` and the flag portion of
  `loadMcpServerConfig`;
* `src/install.ts` — `enforceSendsRequiresWrites`;
* `src/key-manager.ts` — the `KeyManager` store operations (`addKey`,
  `listKeys`, `getKey`, `setActiveKey`, `deleteKey`, `validateAndCleanup`)
  and the lock-acquisition loop (`acquireLock`).

JavaScript records (`Record<string, string>`, `process.env`) are modelled as
association lists with unique keys; external platform facilities (the WHATWG
`URL` parser, the macOS `security` CLI, Windows DPAPI, the file system and the
process-liveness check) are modelled as explicit oracle parameters.
-/

namespace IterableMcp

/-- Decidable equality for thrown-or-returned outcomes. -/
instance {ε α : Type} [DecidableEq ε] [DecidableEq α] :
    DecidableEq (Except ε α) := fun x y =>
  match x, y with
  | .ok a, .ok b =>
    if h : a = b then .isTrue (by rw [h])
    else .isFalse (by simp [h])
  | .ok _, .error _ => .isFalse (by simp)
  | .error _, .ok _ => .isFalse (by simp)
  | .error e, .error f =>
    if h : e = f then .isTrue (by rw [h])
    else .isFalse (by simp [h])

/-! ## Environment records (JS `Record<string, string>` / `process.env`) -/

/-- A JS string-to-string record: association list, keys unique.
`none` from `envGet` models an undefined property. -/
abbrev EnvRecord := List (String × String)

/-- JS `String.prototype.trim()`, on the character-list representation. -/
def jsTrim (s : String) : String :=
  ⟨(((s.data.dropWhile Char.isWhitespace).reverse.dropWhile
      Char.isWhitespace).reverse)⟩

/-- JS `String.prototype.toLowerCase()` (ASCII case folding suffices for the
hostnames compared here). -/
def jsToLower (s : String) : String :=
  ⟨s.data.map Char.toLower⟩

/-- JS `s.startsWith(pat)`. -/
def jsStartsWith (s pat : String) : Bool :=
  pat.data.isPrefixOf s.data

/-- Property read `e[k]` on a JS record: `none` when undefined. -/
def envGet (e : EnvRecord) (k : String) : Option String :=
  e.lookup k

/-- Property assignment `e[k] = v` on a JS record: replaces the value when the
key is present, appends otherwise. -/
def envSet (e : EnvRecord) (k v : String) : EnvRecord :=
  if (e.lookup k).isSome then
    e.map (fun p => bif p.1 == k then (k, v) else p)
  else
    e ++ [(k, v)]

/-! ## Tool filter — `src/tool-filter.ts` -/

/-- A registered MCP tool descriptor. The filter classifies only by `name`
(the SDK `Tool` type carries schema and handler as well, which the filter
never inspects). -/
structure Tool where
  name : String
deriving DecidableEq, Repr

/-- Safe list `NON_PII_TOOLS` from src/tool-filter.ts: tools known not to touch user
PII. -/
def NON_PII_TOOLS : List String := [
  "abort_campaign",
  "activate_triggered_campaign",
  "archive_campaigns",
  "bulk_delete_catalog_items",
  "cancel_campaign",
  "create_campaign",
  "create_catalog",
  "create_list",
  "create_snippet",
  "deactivate_triggered_campaign",
  "delete_catalog",
  "delete_catalog_item",
  "delete_list",
  "delete_snippet",
  "delete_templates",
  "get_campaign",
  "get_campaign_metrics",
  "get_campaigns",
  "get_catalog_field_mappings",
  "get_catalog_item",
  "get_catalog_items",
  "get_catalogs",
  "get_channels",
  "get_child_campaigns",
  "get_email_template",
  "get_experiment_metrics",
  "get_inapp_template",
  "get_journeys",
  "get_list_size",
  "get_lists",
  "get_message_types",
  "get_push_template",
  "get_sms_template",
  "get_snippet",
  "get_snippets",
  "get_template_by_client_id",
  "get_templates",
  "get_user_fields",
  "get_webhooks",
  "partial_update_catalog_item",
  "replace_catalog_item",
  "schedule_campaign",
  "send_campaign",
  "trigger_campaign",
  "update_catalog_field_mappings",
  "update_catalog_items",
  "update_email_template",
  "update_inapp_template",
  "update_push_template",
  "update_sms_template",
  "update_snippet",
  "update_webhook",
  "upsert_email_template",
  "upsert_inapp_template",
  "upsert_push_template",
  "upsert_sms_template"]

/-- Safe list `READ_ONLY_TOOLS` from src/tool-filter.ts: tools performing no write
operation. -/
def READ_ONLY_TOOLS : List String := [
  "get_campaign",
  "get_campaign_metrics",
  "get_campaigns",
  "get_catalog_field_mappings",
  "get_catalog_item",
  "get_catalog_items",
  "get_catalogs",
  "get_channels",
  "get_child_campaigns",
  "get_email_template",
  "get_embedded_messages",
  "get_experiment_metrics",
  "get_export_files",
  "get_export_jobs",
  "get_in_app_messages",
  "get_inapp_template",
  "get_journeys",
  "get_list_preview_users",
  "get_list_size",
  "get_list_users",
  "get_lists",
  "get_message_types",
  "get_push_template",
  "get_sent_messages",
  "get_sms_template",
  "get_snippet",
  "get_snippets",
  "get_template_by_client_id",
  "get_templates",
  "get_user_by_email",
  "get_user_by_user_id",
  "get_user_events_by_email",
  "get_user_events_by_user_id",
  "get_user_fields",
  "get_webhooks",
  "preview_email_template",
  "preview_inapp_template"]

/-- Block list `SEND_TOOLS` from src/tool-filter.ts: tools that can directly or
indirectly trigger sending messages. -/
def SEND_TOOLS : List String := [
  "send_campaign",
  "trigger_campaign",
  "schedule_campaign",
  "create_campaign",
  "activate_triggered_campaign",
  "trigger_journey",
  "track_event",
  "track_bulk_events",
  "send_email",
  "send_sms",
  "send_whatsapp",
  "send_web_push",
  "send_push",
  "send_in_app",
  "send_email_template_proof",
  "send_sms_template_proof",
  "send_push_template_proof",
  "send_inapp_template_proof"]

/-- Configuration `McpServerConfig` from src/config.ts (the filter inspects only the three
allow flags; `apiKey`/`baseUrl` ride along). -/
structure McpServerConfig where
  allowUserPii : Bool
  allowWrites : Bool
  allowSends : Bool
  apiKey : String
  baseUrl : String
deriving Repr

/-- Function `filterTools` from src/tool-filter.ts: safe-list filter, a tool survives
iff (PII allowed or non-PII-listed) and (writes allowed or read-only-listed)
and (sends allowed or not send-listed). -/
def filterTools (tools : List Tool) (config : McpServerConfig) : List Tool :=
  tools.filter fun tool =>
    (config.allowUserPii || NON_PII_TOOLS.contains tool.name) &&
    (config.allowWrites || READ_ONLY_TOOLS.contains tool.name) &&
    (config.allowSends || !(SEND_TOOLS.contains tool.name))

/-! ## Permission resolver — `src/config.ts` -/

/-- The three effective allow flags produced by `resolveAllowFlags`. -/
structure AllowFlags where
  allowUserPii : Bool
  allowWrites : Bool
  allowSends : Bool
deriving DecidableEq, Repr

/-- Function `resolveAllowFlags` from src/config.ts: for each flag,
`(keyEnv?.VAR ?? env.VAR) === "true"` — the per-key override wins whenever it
is a defined property (any defined string short-circuits `??`); otherwise the
process environment is consulted; the flag is true only for the literal
string `"true"`. -/
def resolveAllowFlags (keyEnv : Option EnvRecord) (env : EnvRecord) :
    AllowFlags :=
  let allowUserPii :=
    ((keyEnv.bind fun m => envGet m "ITERABLE_USER_PII").or
      (envGet env "ITERABLE_USER_PII")) == some "true"
  let allowWrites :=
    ((keyEnv.bind fun m => envGet m "ITERABLE_ENABLE_WRITES").or
      (envGet env "ITERABLE_ENABLE_WRITES")) == some "true"
  let allowSends :=
    ((keyEnv.bind fun m => envGet m "ITERABLE_ENABLE_SENDS").or
      (envGet env "ITERABLE_ENABLE_SENDS")) == some "true"
  { allowUserPii := allowUserPii, allowWrites := allowWrites,
    allowSends := allowSends }

/-- The flag portion of `loadMcpServerConfig` (src/config.ts, lines 125–129):
the server path computes the effective flags with `resolveAllowFlags` and
passes the resulting config to `filterTools` unchanged (src/server.ts:217);
no sends-requires-writes normalization is applied on this path. -/
def loadMcpServerConfigFlags (keyEnv : Option EnvRecord) (env : EnvRecord)
    (apiKey baseUrl : String) : McpServerConfig :=
  let flags := resolveAllowFlags keyEnv env
  { allowUserPii := flags.allowUserPii, allowWrites := flags.allowWrites,
    allowSends := flags.allowSends, apiKey := apiKey, baseUrl := baseUrl }

/-- Function `enforceSendsRequiresWrites` from src/install.ts: if
`env.ITERABLE_ENABLE_SENDS === "true"` while
`env.ITERABLE_ENABLE_WRITES !== "true"`, overwrite the sends flag with
`"false"` (the warning callback is log-only). Called only in the setup
flow. -/
def enforceSendsRequiresWrites (env : EnvRecord) : EnvRecord :=
  if envGet env "ITERABLE_ENABLE_SENDS" == some "true" &&
      !(envGet env "ITERABLE_ENABLE_WRITES" == some "true") then
    envSet env "ITERABLE_ENABLE_SENDS" "false"
  else
    env

/-! ## Key manager data model — `src/key-manager.ts` -/

/-- Metadata `ApiKeyMetadata` from src/key-manager.ts: one stored key record.
Optional fields are `Option`; `created` keeps the ISO timestamp string. -/
structure ApiKeyMetadata where
  id : String
  name : String
  baseUrl : String
  created : String
  isActive : Bool
  env : Option EnvRecord := none
  apiKey : Option String := none
  encryptedApiKey : Option String := none
deriving DecidableEq, Repr

/-- On-disk store `KeyStore` from src/key-manager.ts. -/
structure KeyStore where
  keys : List ApiKeyMetadata
  version : Nat
deriving DecidableEq, Repr

/-- The empty store created by `initialize` when no metadata file exists. -/
def emptyStore : KeyStore := { keys := [], version := 1 }

/-- Storage backend selected once at `KeyManager` construction:
macOS Keychain, Windows DPAPI, or plaintext file (Linux / forced file
storage). -/
inductive Backend
  | keychain
  | dpapi
  | file
deriving DecidableEq, Repr

/-- Outcome of one invocation of the external macOS `security` CLI:
trimmed stdout on success, or the thrown error message. -/
inductive VaultResult
  | ok (value : String)
  | err (message : String)
deriving DecidableEq, Repr

/-- The components of a parsed WHATWG URL that `validateBaseUrl` inspects
(`protocol` keeps the trailing colon, as in JS). -/
structure UrlParts where
  protocol : String
  hostname : String
deriving DecidableEq, Repr

/-- Function `isLocalhostHost` from src/utils/url.ts. -/
def isLocalhostHost (hostname : String) : Bool :=
  if hostname == "" then false
  else
    let lower := jsToLower hostname
    lower == "localhost" || lower == "127.0.0.1" || lower == "::1" ||
      jsStartsWith lower "localhost:"

/-- Function `isHttpsOrLocalhost` from src/utils/url.ts. -/
def isHttpsOrLocalhost (url : UrlParts) : Bool :=
  url.protocol == "https:" || isLocalhostHost url.hostname

/-- External facilities the `KeyManager` calls out to, as oracles:
the URL parser, the Keychain add/find commands, and DPAPI
encryption/decryption. -/
structure KeyManagerEnv where
  backend : Backend
  parseUrl : String → Option UrlParts
  vaultAdd : String → String → Except String Unit
  vaultFind : String → VaultResult
  dpapiEncrypt : String → Except String String
  dpapiDecrypt : String → Except String String

/-- Validation `validateApiKey` from src/key-manager.ts: an API key must
match `^[a-f0-9]{32}$`. -/
def isValidApiKeyFormat (apiKey : String) : Bool :=
  apiKey.length == 32 &&
    apiKey.data.all fun c => ('0' ≤ c && c ≤ '9') || ('a' ≤ c && c ≤ 'f')

/-- Validation `validateApiKey` from src/key-manager.ts as a fallible step. -/
def validateApiKey (apiKey : String) : Except String Unit :=
  if apiKey == "" then .error "API key is required"
  else if !isValidApiKeyFormat apiKey then
    .error "API key must be a 32-character lowercase hexadecimal string"
  else .ok ()

/-- Validation `validateBaseUrl` from src/key-manager.ts: non-empty,
parseable, and HTTPS-or-localhost (the non-Iterable-domain warning is
log-only). -/
def validateBaseUrl (parseUrl : String → Option UrlParts)
    (baseUrl : String) : Except String Unit :=
  if baseUrl == "" then .error "Base URL is required"
  else
    match parseUrl baseUrl with
    | none => .error "Invalid base URL format"
    | some url =>
      if !isHttpsOrLocalhost url then
        .error ("Base URL must use HTTPS protocol for security. " ++
          "Insecure HTTP is only permitted for localhost.")
      else .ok ()

/-! ## Key manager operations

Each operation takes the in-memory store and returns the store the
`KeyManager` holds afterwards, paired with the operation's outcome —
an error outcome corresponds to a thrown exception, after which
`this.store` retains whatever value it had when the throw happened. -/

/-- Operation `addKey` from src/key-manager.ts. `genId` stands for the
freshly generated UUID and `now` for `new Date().toISOString()`. The first
key added to an empty store is auto-activated; the secret is stored in the
Keychain (macOS), inline encrypted (Windows), or inline plaintext
(Linux/other). -/
def addKey (kenv : KeyManagerEnv) (store : KeyStore)
    (name apiKey baseUrl : String) (envOverrides : Option EnvRecord)
    (genId now : String) : KeyStore × Except String String :=
  if jsTrim name == "" then (store, .error "Key name is required")
  else
    match validateApiKey apiKey with
    | .error e => (store, .error e)
    | .ok _ =>
      match validateBaseUrl kenv.parseUrl baseUrl with
      | .error e => (store, .error e)
      | .ok _ =>
        if store.keys.any (fun k => k.name == name) then
          (store, .error ("Key with name \"" ++ name ++ "\" already exists"))
        else
          let id := genId
          let isActive := store.keys.length == 0
          let metadata : ApiKeyMetadata :=
            { id := id, name := name, baseUrl := baseUrl, created := now,
              isActive := isActive,
              env := match envOverrides with
                | some e => if e.length > 0 then some e else none
                | none => none }
          match kenv.backend with
          | .keychain =>
            match kenv.vaultAdd id apiKey with
            | .error e =>
              (store, .error ("Failed to store key in macOS Keychain: " ++ e))
            | .ok _ =>
              ({ store with keys := store.keys ++ [metadata] }, .ok id)
          | .dpapi =>
            match kenv.dpapiEncrypt apiKey with
            | .error e =>
              (store,
               .error ("Failed to encrypt key with Windows DPAPI: " ++ e))
            | .ok enc =>
              ({ store with keys :=
                  store.keys ++ [{ metadata with encryptedApiKey := some enc }] },
               .ok id)
          | .file =>
            ({ store with keys :=
                store.keys ++ [{ metadata with apiKey := some apiKey }] },
             .ok id)

/-- Operation `listKeys` from src/key-manager.ts: returns a shallow copy of
the metadata array, `[...this.store.keys]` — each element is the full stored
record. -/
def listKeys (store : KeyStore) : List ApiKeyMetadata :=
  store.keys

/-- The record lookup shared by `getKey` and `setActiveKey`:
`this.store.keys.find((k) => k.id === idOrName || k.name === idOrName)` —
a single pass returning the first record matching by id or by name. -/
def resolveIdOrName (store : KeyStore) (idOrName : String) :
    Option ApiKeyMetadata :=
  store.keys.find? fun k => k.id == idOrName || k.name == idOrName

/-- Operation `getKey` from src/key-manager.ts: resolve the record, then
fetch the secret from the selected backend. `ok none` is the "not found"
null; backend failures and records whose secret is missing are thrown
errors. -/
def getKey (kenv : KeyManagerEnv) (store : KeyStore) (idOrName : String) :
    Except String (Option String) :=
  match resolveIdOrName store idOrName with
  | none => .ok none
  | some keyMeta =>
    match kenv.backend with
    | .keychain =>
      -- the inner "not found" throw is re-wrapped by the surrounding catch
      match kenv.vaultFind keyMeta.id with
      | .ok apiKey =>
        if apiKey == "" then
          .error ("Failed to retrieve key from macOS Keychain: " ++
            "Key not found in macOS Keychain for ID " ++ keyMeta.id)
        else .ok (some apiKey)
      | .err m =>
        .error ("Failed to retrieve key from macOS Keychain: " ++ m)
    | .dpapi =>
      match keyMeta.encryptedApiKey with
      | some enc =>
        match kenv.dpapiDecrypt enc with
        | .ok v => .ok (some v)
        | .error m =>
          .error ("Failed to decrypt key with Windows DPAPI: " ++ m)
      | none =>
        match keyMeta.apiKey with
        | some v => .ok (some v)  -- legacy plaintext fallback on Windows
        | none =>
          .error ("Key not found in storage for ID " ++ keyMeta.id)
    | .file =>
      match keyMeta.apiKey with
      | some v => .ok (some v)
      | none => .error ("Key not found in storage for ID " ++ keyMeta.id)

/-- Operation `setActiveKey` from src/key-manager.ts: resolve the record
(throwing when absent), set `isActive := false` on every record, then
`isActive := true` on the resolved one — the store after the single mutation
has exactly the first id-or-name match active. -/
def setActiveKey (store : KeyStore) (idOrName : String) :
    KeyStore × Except String Unit :=
  match store.keys.find? (fun k => k.id == idOrName || k.name == idOrName) with
  | none => (store, .error ("Key not found: " ++ idOrName))
  | some keyMeta =>
    let idx := store.keys.findIdx
      (fun k => k.id == idOrName || k.name == idOrName)
    let deactivated := store.keys.map fun k => { k with isActive := false }
    ({ store with
        keys := deactivated.set idx { keyMeta with isActive := true } },
     .ok ())

/-- Operation `deleteKey` from src/key-manager.ts: id-only lookup
(`findIndex` then `splice(index, 1)`, i.e. erase the first id match);
throws before any mutation when the id is unknown or the record is active.
A Keychain-entry deletion failure is warn-only and does not change the
metadata outcome, so the backend does not appear here. -/
def deleteKey (store : KeyStore) (id : String) :
    KeyStore × Except String Unit :=
  match store.keys.find? (fun k => k.id == id) with
  | none => (store, .error ("Key not found with ID: " ++ id))
  | some keyMeta =>
    if keyMeta.isActive then
      (store, .error ("Cannot delete the currently active key \"" ++
        keyMeta.name ++ "\". Please activate a different key first."))
    else
      ({ store with keys := store.keys.eraseP (fun k => k.id == id) },
       .ok ())

/-- Substring occurrence on character lists, used to model JS
`String.prototype.includes`. -/
def listContainsSub (pat : List Char) : List Char → Bool
  | [] => pat.isEmpty
  | c :: rest => pat.isPrefixOf (c :: rest) || listContainsSub pat rest

/-- JS `message.includes(pat)`. -/
def strIncludes (message pat : String) : Bool :=
  listContainsSub pat.data message.data

/-- Reconciliation `validateAndCleanup` from src/key-manager.ts (run during
`initialize`): on the Keychain backend, probe every record's vault entry;
records whose probe throws a message containing "could not be found" are
collected as orphans and their names returned for the warning — the store
itself is never modified. -/
def validateAndCleanup (useKeychain : Bool)
    (vaultFind : String → VaultResult) (store : KeyStore) :
    KeyStore × List String :=
  if !useKeychain || store.keys.length == 0 then (store, [])
  else
    let orphanedKeys := store.keys.filter fun keyMeta =>
      match vaultFind keyMeta.id with
      | .ok _ => false
      | .err m => strIncludes m "could not be found"
    (store, orphanedKeys.map (fun k => k.name))

/-! ## Lock acquisition — `acquireLock` in src/key-manager.ts

The loop is modelled against a static contention scenario: one pre-existing
lock file (readable as `{pid, created}`, or unreadable), a constant clock,
a process-liveness oracle, and no competing acquirer re-creating the file.
-/

/-- Contents of a readable lock file: `{ pid, created }`. -/
structure LockInfo where
  pid : Int
  created : Int
deriving DecidableEq, Repr

/-- State of the lock file on disk: absent, or present with parseable
contents (`none` models unreadable/corrupt JSON, which the loop treats as a
normal retry without deletion). -/
inductive LockFile
  | absent
  | present (content : Option LockInfo)
deriving DecidableEq, Repr

/-- Staleness test from the `acquireLock` retry branch: the lock is older
than `maxLockAgeMs` (5 minutes), or its recorded pid is a positive number
whose process no longer exists (`process.kill(pid, 0)` throwing); a
non-positive pid leaves `pidAlive` at its default `true`. -/
def lockIsStale (now : Int) (alive : Int → Bool) (info : LockInfo) : Bool :=
  let maxLockAgeMs : Int := 5 * 60 * 1000
  let isOld := now - info.created > maxLockAgeMs
  let pidAlive := if info.pid > 0 then alive info.pid else true
  isOld || !pidAlive

/-- One-scenario model of the `acquireLock` loop body, with `fuel` the
remaining attempts out of `maxAttempts = 20`: an attempt first tries the
atomic exclusive create (succeeding iff no lock file exists), and on
`EEXIST` deletes the existing lock exactly when it is readable and stale,
then retries. Returns (acquired?, attempts used, final lock-file state);
`acquired = false` with exhausted fuel is the thrown
"Failed to acquire lock" error. -/
def acquireLockLoop (now : Int) (alive : Int → Bool) :
    Nat → LockFile → Nat → Bool × Nat × LockFile
  | 0, fs, used => (false, used, fs)
  | fuel + 1, fs, used =>
    match fs with
    | .absent =>
      -- exclusive create succeeds; the file now holds our own lock
      (true, used + 1, .present none)
    | .present content =>
      let fs' := match content with
        | some info =>
          if lockIsStale now alive info then LockFile.absent else fs
        | none => fs
      acquireLockLoop now alive fuel fs' (used + 1)

/-- Entry point `acquireLock` from src/key-manager.ts: up to
`maxAttempts = 20` attempts (50 ms apart, ≈1 s total budget). -/
def acquireLock (now : Int) (alive : Int → Bool) (fs : LockFile) :
    Bool × Nat × LockFile :=
  acquireLockLoop now alive 20 fs 0

/-- Number of records marked active. -/
def countActive (keys : List ApiKeyMetadata) : Nat :=
  (keys.filter fun k => k.isActive).length

/-- The store operations quantified over by the activation invariant. -/
inductive KeyOp where
  | add (name apiKey baseUrl : String) (envOverrides : Option EnvRecord)
      (genId now : String)
  | activate (idOrName : String)

/-- Run one operation, keeping the store the `KeyManager` holds afterwards
(a failed operation leaves it unchanged, so sequences of successful
operations are a special case). -/
def applyOp (kenv : KeyManagerEnv) (store : KeyStore) : KeyOp → KeyStore
  | .add n a b e g t => (addKey kenv store n a b e g t).1
  | .activate q => (setActiveKey store q).1

/-- Run a sequence of operations from a starting store. -/
def runOps (kenv : KeyManagerEnv) : KeyStore → List KeyOp → KeyStore
  | store, [] => store
  | store, op :: rest => runOps kenv (applyOp kenv store op) rest

/-- A concrete oracle environment for the plaintext-file (Linux) backend,
used to evaluate scenarios. -/
def linuxKenv : KeyManagerEnv :=
  { backend := .file,
    parseUrl := fun s =>
      if s == "https://api.iterable.com" then
        some { protocol := "https:", hostname := "api.iterable.com" }
      else none,
    vaultAdd := fun _ _ => .ok (),
    vaultFind := fun _ => .err "",
    dpapiEncrypt := fun s => .ok s,
    dpapiDecrypt := fun s => .ok s }

/-- A concrete oracle environment for the Windows (DPAPI) backend. -/
def dpapiKenv : KeyManagerEnv :=
  { linuxKenv with backend := .dpapi }

/-- A store in which an early record's name equals a later record's id:
record "a" is named "x", record "x" comes second (file backend, inline
plaintext secrets). -/
def idNameCollisionStore : KeyStore :=
  { keys := [
      { id := "a", name := "x", baseUrl := "https://api.iterable.com",
        created := "t", isActive := true,
        apiKey := some "11111111111111111111111111111111" },
      { id := "x", name := "b", baseUrl := "https://api.iterable.com",
        created := "t", isActive := false,
        apiKey := some "22222222222222222222222222222222" }],
    version := 1 }

/-! ## Shared helper lemmas -/

/-- Membership transfer from the boolean `contains` to `∈`. -/
lemma mem_of_contains_eq_true {l : List String} {s : String}
    (h : l.contains s = true) : s ∈ l :=
  List.elem_iff.mp h

/-- No send-capable tool name is in the read-only safe list. -/
lemma send_not_read_only {s : String} (h : SEND_TOOLS.contains s = true) :
    READ_ONLY_TOOLS.contains s = false := by
  have hall : SEND_TOOLS.all (fun x => !(READ_ONLY_TOOLS.contains x)) = true :=
    by decide
  have hmem : s ∈ SEND_TOOLS := mem_of_contains_eq_true h
  simpa using List.all_eq_true.mp hall s hmem

/-- Looking up the replaced key after the in-place update branch of
`envSet`. -/
lemma lookup_map_replace (k v : String) (e : EnvRecord) :
    List.lookup k (e.map (fun p => bif p.1 == k then (k, v) else p)) =
      (List.lookup k e).map (fun _ => v) := by
  induction e with
  | nil => rfl
  | cons p t ih =>
    obtain ⟨a, b⟩ := p
    by_cases hak : a = k
    · subst hak
      simp [List.lookup]
    · have h1 : (a == k) = false := by simp [hak]
      have h2 : (k == a) = false := by simp [Ne.symm hak]
      simp [List.lookup, h1, h2, ih]

/-- Looking up a different key after the in-place update branch of
`envSet`. -/
lemma lookup_map_replace_ne (k v k' : String) (h : k' ≠ k) (e : EnvRecord) :
    List.lookup k' (e.map (fun p => bif p.1 == k then (k, v) else p)) =
      List.lookup k' e := by
  induction e with
  | nil => rfl
  | cons p t ih =>
    obtain ⟨a, b⟩ := p
    by_cases hak : a = k
    · subst hak
      have h1 : (k' == a) = false := by simp [h]
      simp [List.lookup, h1, ih]
    · have h1 : (a == k) = false := by simp [hak]
      cases hka : (k' == a) with
      | true => simp [List.lookup, hka, h1]
      | false => simp [List.lookup, hka, h1, ih]

/-- Looking up the appended key after the append branch of `envSet`. -/
lemma lookup_append_pair_self (k v : String) (e : EnvRecord)
    (h : List.lookup k e = none) :
    List.lookup k (e ++ [(k, v)]) = some v := by
  induction e with
  | nil => simp [List.lookup]
  | cons p t ih =>
    obtain ⟨a, b⟩ := p
    cases hka : (k == a) with
    | true => simp [List.lookup, hka] at h
    | false =>
      simp only [List.lookup, hka] at h
      simp only [List.cons_append, List.lookup, hka]
      exact ih h

/-- Looking up a different key after the append branch of `envSet`. -/
lemma lookup_append_pair_ne (k v k' : String) (h : k' ≠ k) (e : EnvRecord) :
    List.lookup k' (e ++ [(k, v)]) = List.lookup k' e := by
  induction e with
  | nil =>
    have h1 : (k' == k) = false := by simp [h]
    simp [List.lookup, h1]
  | cons p t ih =>
    obtain ⟨a, b⟩ := p
    cases hka : (k' == a) with
    | true => simp [List.lookup, hka]
    | false => simp only [List.cons_append, List.lookup, hka]; exact ih

/-- Reading back the key just assigned on a JS record. -/
lemma envGet_envSet_self (e : EnvRecord) (k v : String) :
    envGet (envSet e k v) k = some v := by
  unfold envSet envGet
  cases ho : List.lookup k e with
  | some u => simp [ho, lookup_map_replace k v e]
  | none => simp [ho, lookup_append_pair_self k v e ho]

/-- Assigning one key on a JS record leaves the other keys' values
unchanged. -/
lemma envGet_envSet_ne (e : EnvRecord) (k v k' : String) (h : k' ≠ k) :
    envGet (envSet e k v) k' = envGet e k' := by
  unfold envSet envGet
  cases ho : List.lookup k e with
  | some u => simp [ho, lookup_map_replace_ne k v k' h e]
  | none => simp [ho, lookup_append_pair_ne k v k' h e]

/-! ## C1 — filter send gating -/

/-- C1: for every tool list and configuration, a tool named in `SEND_TOOLS`
survives `filterTools` only when both `allowWrites` and `allowSends` are
true (so it is excluded whenever either flag is false); this rests on no
`SEND_TOOLS` name being in `READ_ONLY_TOOLS`, stated as the second
conjunct. -/
theorem filterTools_send_gating :
    (∀ (tools : List Tool) (cfg : McpServerConfig) (t : Tool),
      SEND_TOOLS.contains t.name = true →
      t ∈ filterTools tools cfg →
      cfg.allowWrites = true ∧ cfg.allowSends = true) ∧
    SEND_TOOLS.all (fun s => !(READ_ONLY_TOOLS.contains s)) = true := by
  constructor
  · intro tools cfg t hsend hmem
    rw [filterTools, List.mem_filter] at hmem
    obtain ⟨-, hcond⟩ := hmem
    rw [Bool.and_eq_true, Bool.and_eq_true] at hcond
    obtain ⟨⟨-, hwrites⟩, hsends⟩ := hcond
    rw [send_not_read_only hsend, Bool.or_false] at hwrites
    rw [hsend] at hsends
    exact ⟨hwrites, by simpa using hsends⟩
  · decide

/-- Witness for C1: instantiated at a concrete send tool and an
all-permissive configuration. -/
theorem filterTools_send_gating_witness :
    SEND_TOOLS.contains (Tool.mk "send_campaign").name = true ∧
    (Tool.mk "send_campaign") ∈ filterTools [Tool.mk "send_campaign"]
      (McpServerConfig.mk true true true "k" "u") ∧
    ((McpServerConfig.mk true true true "k" "u").allowWrites = true ∧
      (McpServerConfig.mk true true true "k" "u").allowSends = true) :=
  ⟨by decide, by decide,
    filterTools_send_gating.1 [Tool.mk "send_campaign"]
      (McpServerConfig.mk true true true "k" "u") (Tool.mk "send_campaign")
      (by decide) (by decide)⟩

/-! ## C8 — permission resolution precedence -/

/-- C8: each allow flag is resolved independently: when the per-key override
record defines the variable (with any string), the flag is true exactly for
the literal value `"true"` and the process environment is not consulted;
when the override leaves it undefined, the flag is true exactly when the
process environment holds the literal `"true"`; absence in both yields
false. -/
theorem resolveAllowFlags_precedence (keyEnv : Option EnvRecord)
    (env : EnvRecord) :
    (∀ v, (keyEnv.bind fun m => envGet m "ITERABLE_USER_PII") = some v →
      ((resolveAllowFlags keyEnv env).allowUserPii = true ↔ v = "true")) ∧
    ((keyEnv.bind fun m => envGet m "ITERABLE_USER_PII") = none →
      ((resolveAllowFlags keyEnv env).allowUserPii = true ↔
        envGet env "ITERABLE_USER_PII" = some "true")) ∧
    (∀ v, (keyEnv.bind fun m => envGet m "ITERABLE_ENABLE_WRITES") = some v →
      ((resolveAllowFlags keyEnv env).allowWrites = true ↔ v = "true")) ∧
    ((keyEnv.bind fun m => envGet m "ITERABLE_ENABLE_WRITES") = none →
      ((resolveAllowFlags keyEnv env).allowWrites = true ↔
        envGet env "ITERABLE_ENABLE_WRITES" = some "true")) ∧
    (∀ v, (keyEnv.bind fun m => envGet m "ITERABLE_ENABLE_SENDS") = some v →
      ((resolveAllowFlags keyEnv env).allowSends = true ↔ v = "true")) ∧
    ((keyEnv.bind fun m => envGet m "ITERABLE_ENABLE_SENDS") = none →
      ((resolveAllowFlags keyEnv env).allowSends = true ↔
        envGet env "ITERABLE_ENABLE_SENDS" = some "true")) := by
  refine ⟨?_, ?_, ?_, ?_, ?_, ?_⟩
  · intro v h; simp [resolveAllowFlags, h, Option.or]
  · intro h; simp [resolveAllowFlags, h, Option.or]
  · intro v h; simp [resolveAllowFlags, h, Option.or]
  · intro h; simp [resolveAllowFlags, h, Option.or]
  · intro v h; simp [resolveAllowFlags, h, Option.or]
  · intro h; simp [resolveAllowFlags, h, Option.or]

/-- Witness for C8: the spec's own example — override `{PII: "true"}` with
environment `{PII: "false", WRITES: "true"}` yields effective PII true
(override wins) and effective writes true (environment fallback). -/
theorem resolveAllowFlags_precedence_witness :
    (resolveAllowFlags (some [("ITERABLE_USER_PII", "true")])
      [("ITERABLE_USER_PII", "false"),
       ("ITERABLE_ENABLE_WRITES", "true")]).allowUserPii = true ∧
    (resolveAllowFlags (some [("ITERABLE_USER_PII", "true")])
      [("ITERABLE_USER_PII", "false"),
       ("ITERABLE_ENABLE_WRITES", "true")]).allowWrites = true :=
  ⟨((resolveAllowFlags_precedence
        (some [("ITERABLE_USER_PII", "true")])
        [("ITERABLE_USER_PII", "false"),
         ("ITERABLE_ENABLE_WRITES", "true")]).1 "true" (by decide)).mpr rfl,
   ((resolveAllowFlags_precedence
        (some [("ITERABLE_USER_PII", "true")])
        [("ITERABLE_USER_PII", "false"),
         ("ITERABLE_ENABLE_WRITES", "true")]).2.2.2.1 (by decide)).mpr
      (by decide)⟩

/-! ## C3 — sends-requires-writes normalization -/

/-- Counterexample for C3: a per-key override enabling sends but not writes
flows through `loadMcpServerConfig` (which applies `resolveAllowFlags` and
no normalization) into the configuration handed to `filterTools`
(src/server.ts:217), so a configuration with `allowSends = true` and
`allowWrites = false` does reach the filter — `enforceSendsRequiresWrites`
is only applied in the setup/install flow. -/
theorem serverPath_sends_without_writes :
    (loadMcpServerConfigFlags (some [("ITERABLE_ENABLE_SENDS", "true")]) []
      "key" "https://api.iterable.com").allowSends = true ∧
    (loadMcpServerConfigFlags (some [("ITERABLE_ENABLE_SENDS", "true")]) []
      "key" "https://api.iterable.com").allowWrites = false := by decide

/-- C3 as amended: `enforceSendsRequiresWrites` (the setup-flow
normalization) leaves sends enabled only when writes are enabled; and even
when a sends-without-writes configuration reaches `filterTools` on the
un-normalized server path, no `SEND_TOOLS` tool survives the filter, since
every surviving tool needs `allowWrites` or `READ_ONLY_TOOLS` membership
and no send tool is read-only. -/
theorem enforceSendsRequiresWrites_normalizes :
    (∀ e : EnvRecord,
      envGet (enforceSendsRequiresWrites e) "ITERABLE_ENABLE_SENDS" =
        some "true" →
      envGet (enforceSendsRequiresWrites e) "ITERABLE_ENABLE_WRITES" =
        some "true") ∧
    (∀ (tools : List Tool) (cfg : McpServerConfig) (t : Tool),
      cfg.allowWrites = false → t ∈ filterTools tools cfg →
      SEND_TOOLS.contains t.name = false) := by
  constructor
  · intro e hpost
    unfold enforceSendsRequiresWrites at hpost ⊢
    by_cases hcond : (envGet e "ITERABLE_ENABLE_SENDS" == some "true" &&
        !(envGet e "ITERABLE_ENABLE_WRITES" == some "true")) = true
    · rw [if_pos hcond] at hpost
      rw [envGet_envSet_self] at hpost
      exact absurd hpost (by decide)
    · rw [if_neg hcond] at hpost ⊢
      have hA : (envGet e "ITERABLE_ENABLE_SENDS" == some "true") = true := by
        simp [hpost]
      cases hB : (envGet e "ITERABLE_ENABLE_WRITES" == some "true") with
      | true => exact eq_of_beq hB
      | false =>
        exfalso
        apply hcond
        rw [hA, hB]
        rfl
  · intro tools cfg t hw hmem
    rw [filterTools, List.mem_filter] at hmem
    obtain ⟨-, hcond⟩ := hmem
    rw [Bool.and_eq_true, Bool.and_eq_true] at hcond
    obtain ⟨⟨-, hwrites⟩, -⟩ := hcond
    rw [hw, Bool.false_or] at hwrites
    cases hsend : SEND_TOOLS.contains t.name with
    | false => rfl
    | true =>
      rw [send_not_read_only hsend] at hwrites
      exact absurd hwrites (by decide)

/-- Witness for C3 (amended): a normalized record with both flags, and a
read-only tool surviving a writes-disabled filter. -/
theorem enforceSendsRequiresWrites_normalizes_witness :
    envGet (enforceSendsRequiresWrites
      [("ITERABLE_ENABLE_WRITES", "true"), ("ITERABLE_ENABLE_SENDS", "true")])
      "ITERABLE_ENABLE_WRITES" = some "true" ∧
    SEND_TOOLS.contains (Tool.mk "get_lists").name = false :=
  ⟨enforceSendsRequiresWrites_normalizes.1
      [("ITERABLE_ENABLE_WRITES", "true"), ("ITERABLE_ENABLE_SENDS", "true")]
      (by decide),
   enforceSendsRequiresWrites_normalizes.2 [Tool.mk "get_lists"]
      (McpServerConfig.mk true false false "k" "u") (Tool.mk "get_lists")
      rfl (by decide)⟩

/-! ## C4 — listKeys and secret material -/

/-- Evidence against C4: on the plaintext-file backend, after a single
successful `addKey`, the record returned by `listKeys` carries the plaintext
API key in its `apiKey` field — contradicting the documented contract that
listed metadata never includes the actual key value. -/
theorem listKeys_exposes_plaintext_secret :
    (listKeys (addKey linuxKenv emptyStore "test"
        "a1b2c3d4e5f6789012345678901234ab" "https://api.iterable.com"
        none "id-1" "2024-01-01T00:00:00.000Z").1).map
      (fun k => k.apiKey) = [some "a1b2c3d4e5f6789012345678901234ab"] := by
  decide

/-! ## C6 — orphan reconciliation is non-destructive -/

/-- C6: `validateAndCleanup` never removes a record — for every backend
flag, probe oracle and store, the store is returned unchanged, every record
is still in `listKeys` afterwards, and every record whose vault probe
reported "could not be found" is named in the returned warning list instead
of being deleted. -/
theorem validateAndCleanup_preserves_store (useKeychain : Bool)
    (vaultFind : String → VaultResult) (store : KeyStore) :
    (validateAndCleanup useKeychain vaultFind store).1 = store ∧
    (∀ k ∈ store.keys,
      k ∈ listKeys (validateAndCleanup useKeychain vaultFind store).1) ∧
    (∀ k ∈ store.keys, useKeychain = true →
      (match vaultFind k.id with
        | .ok _ => false
        | .err m => strIncludes m "could not be found") = true →
      k.name ∈ (validateAndCleanup useKeychain vaultFind store).2) := by
  refine ⟨?_, ?_, ?_⟩
  · unfold validateAndCleanup
    split <;> rfl
  · intro k hk
    unfold validateAndCleanup listKeys
    split <;> exact hk
  · intro k hk hu hprobe
    have hne : store.keys ≠ [] := List.ne_nil_of_mem hk
    have hlen : (store.keys.length == 0) = false := by
      cases hkeys : store.keys with
      | nil => exact absurd hkeys hne
      | cons a t => simp [hkeys]
    unfold validateAndCleanup
    rw [hu, hlen]
    simp only [Bool.not_true, Bool.false_or, if_false, Bool.false_eq_true]
    exact List.mem_map.mpr ⟨k, List.mem_filter.mpr ⟨hk, hprobe⟩, rfl⟩

/-- Witness for C6: a store whose single record's vault probe reports "could
not be found" keeps the record and names it in the warning. -/
theorem validateAndCleanup_preserves_store_witness :
    (validateAndCleanup true
      (fun _ => .err "The specified item could not be found in the keychain.")
      (KeyStore.mk [ApiKeyMetadata.mk "id-1" "prod"
        "https://api.iterable.com" "t" true none none none] 1)).1 =
      KeyStore.mk [ApiKeyMetadata.mk "id-1" "prod"
        "https://api.iterable.com" "t" true none none none] 1 ∧
    "prod" ∈ (validateAndCleanup true
      (fun _ => .err "The specified item could not be found in the keychain.")
      (KeyStore.mk [ApiKeyMetadata.mk "id-1" "prod"
        "https://api.iterable.com" "t" true none none none] 1)).2 :=
  ⟨(validateAndCleanup_preserves_store true _ _).1,
   (validateAndCleanup_preserves_store true
      (fun _ => .err "The specified item could not be found in the keychain.")
      (KeyStore.mk [ApiKeyMetadata.mk "id-1" "prod"
        "https://api.iterable.com" "t" true none none none] 1)).2.2
      (ApiKeyMetadata.mk "id-1" "prod"
        "https://api.iterable.com" "t" true none none none)
      (by decide) rfl (by decide)⟩

/-! ## C2 — at-most-one-active invariant -/

/-- Active counts add over list append. -/
lemma countActive_append (l1 l2 : List ApiKeyMetadata) :
    countActive (l1 ++ l2) = countActive l1 + countActive l2 := by
  simp [countActive, List.filter_append]

/-- An all-inactive list has active count zero. -/
lemma countActive_eq_zero (l : List ApiKeyMetadata)
    (h : ∀ k ∈ l, k.isActive = false) : countActive l = 0 := by
  induction l with
  | nil => rfl
  | cons a t ih =>
    have ha := h a (List.mem_cons_self a t)
    have ht := fun k hk => h k (List.mem_cons_of_mem a hk)
    simpa [countActive, List.filter_cons, ha] using ih ht

/-- Setting one active record into an all-inactive list yields active count
one. -/
lemma countActive_set_one (l : List ApiKeyMetadata) (idx : Nat)
    (m : ApiKeyMetadata) (hl : ∀ k ∈ l, k.isActive = false)
    (hm : m.isActive = true) (hidx : idx < l.length) :
    countActive (l.set idx m) = 1 := by
  induction l generalizing idx with
  | nil => simp at hidx
  | cons a t ih =>
    have hta : ∀ k ∈ t, k.isActive = false :=
      fun k hk => hl k (List.mem_cons_of_mem a hk)
    cases idx with
    | zero =>
      rw [List.set_cons_zero]
      unfold countActive
      rw [List.filter_cons]
      simp only [hm, if_true]
      rw [List.length_cons]
      have h0 : countActive t = 0 := countActive_eq_zero t hta
      unfold countActive at h0
      rw [h0]
    | succ n =>
      have ha := hl a (List.mem_cons_self a t)
      have hn : n < t.length := by simpa using hidx
      have hrec := ih n hta hn
      rw [List.set_cons_succ]
      unfold countActive at hrec ⊢
      rw [List.filter_cons]
      simp only [ha, Bool.false_eq_true, if_false]
      exact hrec

/-- Result shape of `addKey`: either an error left the store unchanged, or
exactly one record was appended, active iff the store was empty. -/
lemma addKey_result (kenv : KeyManagerEnv) (store : KeyStore)
    (n a b : String) (e : Option EnvRecord) (g t : String) :
    (addKey kenv store n a b e g t).1 = store ∨
    ∃ m, (addKey kenv store n a b e g t).1.keys = store.keys ++ [m] ∧
      m.isActive = (store.keys.length == 0) := by
  unfold addKey
  dsimp only
  repeat' split
  all_goals first
    | exact .inl rfl
    | exact .inr ⟨_, rfl, rfl⟩

/-- `addKey` preserves the activation invariant: zero active records while
the store is empty, exactly one once it is not. -/
lemma countActive_addKey (kenv : KeyManagerEnv) (store : KeyStore)
    (n a b : String) (e : Option EnvRecord) (g t : String)
    (h : countActive store.keys = cond store.keys.isEmpty 0 1) :
    countActive (addKey kenv store n a b e g t).1.keys =
      cond (addKey kenv store n a b e g t).1.keys.isEmpty 0 1 := by
  rcases addKey_result kenv store n a b e g t with heq | ⟨m, hkeys, hact⟩
  · rw [heq]; exact h
  · rw [hkeys]
    cases hl : store.keys with
    | nil =>
      rw [hl] at hact
      simp only [List.length_nil] at hact
      simp [countActive, List.filter_cons, hact]
    | cons x xs =>
      rw [hl] at h hact
      simp only [List.length_cons] at hact
      have hact' : m.isActive = false := by simpa using hact
      have h1 : countActive (x :: xs) = 1 := by simpa using h
      have hm0 : countActive [m] = 0 := by
        simp [countActive, List.filter_cons, hact']
      rw [countActive_append, h1, hm0]
      rfl

/-- `setActiveKey` preserves the activation invariant. -/
lemma countActive_setActiveKey (store : KeyStore) (q : String)
    (h : countActive store.keys = cond store.keys.isEmpty 0 1) :
    countActive (setActiveKey store q).1.keys =
      cond (setActiveKey store q).1.keys.isEmpty 0 1 := by
  unfold setActiveKey
  split
  · exact h
  · rename_i keyMeta hfind
    have hmem := List.mem_of_find?_eq_some hfind
    have hp := List.find?_some hfind
    have hidx : store.keys.findIdx
        (fun k => k.id == q || k.name == q) < store.keys.length :=
      List.findIdx_lt_length_of_exists ⟨keyMeta, hmem, hp⟩
    have hidx' : store.keys.findIdx (fun k => k.id == q || k.name == q) <
        (store.keys.map fun k => { k with isActive := false }).length := by
      rw [List.length_map]; exact hidx
    have hall : ∀ k ∈ store.keys.map fun k => { k with isActive := false },
        k.isActive = false := by
      intro k hk
      obtain ⟨x, -, hx⟩ := List.mem_map.mp hk
      rw [← hx]
    have hcount := countActive_set_one
      (store.keys.map fun k => { k with isActive := false })
      (store.keys.findIdx (fun k => k.id == q || k.name == q))
      { keyMeta with isActive := true } hall rfl hidx'
    have hlen : ((store.keys.map fun k => { k with isActive := false }).set
        (store.keys.findIdx (fun k => k.id == q || k.name == q))
        { keyMeta with isActive := true }).length = store.keys.length := by
      rw [List.length_set, List.length_map]
    have hpos : 0 < store.keys.length := Nat.lt_of_le_of_lt (Nat.zero_le _) hidx
    have hne : ((store.keys.map fun k => { k with isActive := false }).set
        (store.keys.findIdx (fun k => k.id == q || k.name == q))
        { keyMeta with isActive := true }).isEmpty = false := by
      cases hc : ((store.keys.map fun k => { k with isActive := false }).set
          (store.keys.findIdx (fun k => k.id == q || k.name == q))
          { keyMeta with isActive := true }) with
      | nil => rw [hc] at hlen; simp at hlen; omega
      | cons y ys => rfl
    simpa [hne] using hcount

/-- The activation invariant holds along any run of operations. -/
lemma runOps_active_inv (kenv : KeyManagerEnv) (ops : List KeyOp) :
    ∀ store, countActive store.keys = cond store.keys.isEmpty 0 1 →
      countActive (runOps kenv store ops).keys =
        cond (runOps kenv store ops).keys.isEmpty 0 1 := by
  induction ops with
  | nil => intro store h; exact h
  | cons op rest ih =>
    intro store h
    cases op with
    | add n a b e g t =>
      exact ih _ (countActive_addKey kenv store n a b e g t h)
    | activate q =>
      exact ih _ (countActive_setActiveKey store q h)

/-- C2: along any sequence of `addKey`/`setActiveKey` operations from the
empty store (failed operations leave the store unchanged, so sequences of
successful operations are included), at most one record is active after
each operation, and exactly one as soon as the store is non-empty — i.e.
after the first successful `addKey`. -/
theorem keyStore_at_most_one_active (kenv : KeyManagerEnv)
    (ops : List KeyOp) :
    countActive (runOps kenv emptyStore ops).keys ≤ 1 ∧
    countActive (runOps kenv emptyStore ops).keys =
      cond (runOps kenv emptyStore ops).keys.isEmpty 0 1 := by
  have hinv := runOps_active_inv kenv ops emptyStore (by rfl)
  refine ⟨?_, hinv⟩
  rw [hinv]
  cases (runOps kenv emptyStore ops).keys.isEmpty <;> simp

/-! ## C5 — invariant-violation errors are atomic -/

/-- C5: adding a key whose name is already in the store always throws and
returns the store unchanged; deleting the currently active record throws
the invariant error with the store unchanged; and after activating a
different record the previously rejected delete succeeds (stated on a
two-record store whose second record is addressed by an id colliding with
no other id or name). -/
theorem invariant_errors_atomic :
    (∀ (kenv : KeyManagerEnv) (store : KeyStore)
        (name apiKey baseUrl : String) (e : Option EnvRecord) (g t : String),
      store.keys.any (fun k => k.name == name) = true →
      (addKey kenv store name apiKey baseUrl e g t).1 = store ∧
      ∃ msg, (addKey kenv store name apiKey baseUrl e g t).2 = .error msg) ∧
    (∀ (store : KeyStore) (id : String) (k : ApiKeyMetadata),
      store.keys.find? (fun x => x.id == id) = some k →
      k.isActive = true →
      deleteKey store id =
        (store, .error ("Cannot delete the currently active key \"" ++
          k.name ++ "\". Please activate a different key first."))) ∧
    (∀ (r1 r2 : ApiKeyMetadata) (v : Nat),
      r1.isActive = true →
      r1.id ≠ r2.id → r1.name ≠ r2.id →
      ((deleteKey (KeyStore.mk [r1, r2] v) r1.id).1 = KeyStore.mk [r1, r2] v ∧
        ∃ msg, (deleteKey (KeyStore.mk [r1, r2] v) r1.id).2 = .error msg) ∧
      ((setActiveKey (KeyStore.mk [r1, r2] v) r2.id).2 = .ok () ∧
        (deleteKey (setActiveKey (KeyStore.mk [r1, r2] v) r2.id).1
          r1.id).2 = .ok ())) := by
  refine ⟨?_, ?_, ?_⟩
  · intro kenv store name apiKey baseUrl e g t hdup
    unfold addKey
    dsimp only
    repeat' split
    all_goals first
      | exact ⟨rfl, _, rfl⟩
      | simp_all
  · intro store id k hfind hact
    unfold deleteKey
    rw [hfind]
    simp [hact]
  · intro r1 r2 v hact hid hname
    have h1 : (r1.id == r2.id) = false := by simp [hid]
    have h2 : (r1.name == r2.id) = false := by simp [hname]
    refine ⟨⟨?_, ?_⟩, ?_, ?_⟩
    · simp [deleteKey, List.find?, hact]
    · refine ⟨"Cannot delete the currently active key \"" ++ r1.name ++
        "\". Please activate a different key first.", ?_⟩
      simp [deleteKey, List.find?, hact]
    · simp [setActiveKey, List.find?, h1, h2]
    · simp [setActiveKey, deleteKey, List.find?, List.findIdx, h1, h2,
        List.findIdx.go]

/-- Witness for C5: concrete two-record store with the active record
first. -/
theorem invariant_errors_atomic_witness :
    ((addKey linuxKenv (KeyStore.mk [ApiKeyMetadata.mk "id-a" "prod"
          "https://api.iterable.com" "t" true none (some
          "a1b2c3d4e5f6789012345678901234ab") none] 1) "prod"
        "0123456789abcdef0123456789abcdef" "https://api.iterable.com"
        none "id-new" "t2").1 =
      KeyStore.mk [ApiKeyMetadata.mk "id-a" "prod"
        "https://api.iterable.com" "t" true none (some
        "a1b2c3d4e5f6789012345678901234ab") none] 1 ∧
      ∃ msg, (addKey linuxKenv (KeyStore.mk [ApiKeyMetadata.mk "id-a" "prod"
          "https://api.iterable.com" "t" true none (some
          "a1b2c3d4e5f6789012345678901234ab") none] 1) "prod"
        "0123456789abcdef0123456789abcdef" "https://api.iterable.com"
        none "id-new" "t2").2 = .error msg) ∧
    ((setActiveKey (KeyStore.mk [
        ApiKeyMetadata.mk "id-a" "prod" "https://api.iterable.com" "t"
          true none (some "a1b2c3d4e5f6789012345678901234ab") none,
        ApiKeyMetadata.mk "id-b" "staging" "https://api.eu.iterable.com" "t"
          false none (some "0123456789abcdef0123456789abcdef") none] 1)
        "id-b").2 = .ok () ∧
      (deleteKey (setActiveKey (KeyStore.mk [
        ApiKeyMetadata.mk "id-a" "prod" "https://api.iterable.com" "t"
          true none (some "a1b2c3d4e5f6789012345678901234ab") none,
        ApiKeyMetadata.mk "id-b" "staging" "https://api.eu.iterable.com" "t"
          false none (some "0123456789abcdef0123456789abcdef") none] 1)
        "id-b").1 "id-a").2 = .ok ()) :=
  ⟨invariant_errors_atomic.1 linuxKenv _ "prod"
      "0123456789abcdef0123456789abcdef" "https://api.iterable.com"
      none "id-new" "t2" (by decide),
   (invariant_errors_atomic.2.2
      (ApiKeyMetadata.mk "id-a" "prod" "https://api.iterable.com" "t"
        true none (some "a1b2c3d4e5f6789012345678901234ab") none)
      (ApiKeyMetadata.mk "id-b" "staging" "https://api.eu.iterable.com" "t"
        false none (some "0123456789abcdef0123456789abcdef") none)
      1 rfl (by decide) (by decide)).2⟩

/-! ## C7 — stale-lock recovery and bounded fail-closed acquisition -/

/-- C7: against a single pre-existing readable lock, the acquisition loop
deletes the lock only when it is stale (holder dead or older than five
minutes): a live fresh lock survives all twenty attempts and acquisition
fails closed with the lock intact, while a stale lock is reclaimed on the
second attempt — far inside the twenty-attempt budget. -/
theorem acquireLock_stale_handling (now : Int) (alive : Int → Bool)
    (info : LockInfo) :
    (lockIsStale now alive info = false →
      acquireLock now alive (.present (some info)) =
        (false, 20, .present (some info))) ∧
    (lockIsStale now alive info = true →
      acquireLock now alive (.present (some info)) =
        (true, 2, .present none)) := by
  constructor
  · intro hfresh
    have haux : ∀ fuel used, acquireLockLoop now alive fuel
        (.present (some info)) used =
        (false, used + fuel, .present (some info)) := by
      intro fuel
      induction fuel with
      | zero => intro used; rfl
      | succ n ih =>
        intro used
        have hstep : acquireLockLoop now alive (n + 1)
            (.present (some info)) used =
            acquireLockLoop now alive n
              (if lockIsStale now alive info then LockFile.absent
                else LockFile.present (some info)) (used + 1) := rfl
        rw [hstep, hfresh, if_neg (by simp), ih (used + 1)]
        have harith : used + 1 + n = used + (n + 1) := by omega
        rw [harith]
    exact haux 20 0
  · intro hstale
    have hstep : acquireLock now alive (.present (some info)) =
        acquireLockLoop now alive 19
          (if lockIsStale now alive info then LockFile.absent
            else LockFile.present (some info)) 1 := rfl
    rw [hstep, hstale, if_pos rfl]
    rfl

/-- Witness for C7: a fresh lock held by a live process (pid 42 alive,
created 1 second ago) is never deleted and acquisition fails; the same lock
with its process dead is reclaimed on attempt two. -/
theorem acquireLock_stale_handling_witness :
    acquireLock 1000000 (fun _ => true) (.present (some ⟨42, 999000⟩)) =
      (false, 20, .present (some ⟨42, 999000⟩)) ∧
    acquireLock 1000000 (fun _ => false) (.present (some ⟨42, 999000⟩)) =
      (true, 2, .present none) :=
  ⟨(acquireLock_stale_handling 1000000 (fun _ => true) ⟨42, 999000⟩).1
      (by decide),
   (acquireLock_stale_handling 1000000 (fun _ => false) ⟨42, 999000⟩).2
      (by decide)⟩

/-! ## C9 — id-or-name resolution order -/

/-- Decomposition of a successful `find?`: the hit satisfies the predicate
and everything before it refutes it. -/
lemma find?_eq_some_split {α : Type} (p : α → Bool) :
    ∀ (l : List α) (a : α), l.find? p = some a →
      p a = true ∧ ∃ pre post, l = pre ++ a :: post ∧
        ∀ x ∈ pre, p x = false := by
  intro l
  induction l with
  | nil => intro a h; cases h
  | cons b t ih =>
    intro a h
    cases hb : p b with
    | true =>
      simp only [List.find?, hb] at h
      cases h
      exact ⟨hb, [], t, rfl, by simp⟩
    | false =>
      simp only [List.find?, hb] at h
      obtain ⟨hpa, pre, post, heq, hpre⟩ := ih a h
      refine ⟨hpa, b :: pre, post, by rw [heq]; rfl, ?_⟩
      intro x hx
      rcases List.mem_cons.mp hx with hxb | hxpre
      · rw [hxb]; exact hb
      · exact hpre x hxpre

/-- Counterexample for C9: in `idNameCollisionStore` the argument `"x"` is
the id of the second record (secret `2222…`), yet `getKey` returns the
first record's secret (`1111…`, matched by name) and `setActiveKey`
activates the first record — resolution is not id-before-name but first
match in insertion order. -/
theorem getKey_not_id_first :
    ((idNameCollisionStore.keys.map fun k => k.id).contains "x" = true) ∧
    getKey linuxKenv idNameCollisionStore "x" =
      .ok (some "11111111111111111111111111111111") ∧
    (setActiveKey idNameCollisionStore "x").1.keys.map
      (fun k => (k.id, k.isActive)) = [("a", true), ("x", false)] := by
  decide

/-- C9 as amended: `getKey` and `setActiveKey` resolve the argument to the
first record in insertion order whose id or name equals it (a single
`find` with an or-predicate, not id-before-name); `getKey` returns null
(and `setActiveKey` throws its not-found error) exactly when no record
matches by id or name. -/
theorem resolveIdOrName_first_match (store : KeyStore) (q : String) :
    (∀ k, resolveIdOrName store q = some k →
      (k.id = q ∨ k.name = q) ∧
      ∃ pre post, store.keys = pre ++ k :: post ∧
        ∀ x ∈ pre, x.id ≠ q ∧ x.name ≠ q) ∧
    (resolveIdOrName store q = none ↔
      ∀ k ∈ store.keys, k.id ≠ q ∧ k.name ≠ q) ∧
    (∀ kenv, getKey kenv store q = .ok none →
      ∀ k ∈ store.keys, k.id ≠ q ∧ k.name ≠ q) ∧
    ((setActiveKey store q).2 = .error ("Key not found: " ++ q) ↔
      resolveIdOrName store q = none) := by
  have hsplit := find?_eq_some_split
    (fun k : ApiKeyMetadata => k.id == q || k.name == q) store.keys
  have hiff : resolveIdOrName store q = none ↔
      ∀ k ∈ store.keys, k.id ≠ q ∧ k.name ≠ q := by
    unfold resolveIdOrName
    rw [List.find?_eq_none]
    constructor
    · intro h k hk
      have := h k hk
      simpa using this
    · intro h k hk
      have := h k hk
      simpa using this
  refine ⟨?_, hiff, ?_, ?_⟩
  · intro k hk
    obtain ⟨hp, pre, post, heq, hpre⟩ := hsplit k hk
    refine ⟨by simpa using hp, pre, post, heq, ?_⟩
    intro x hx
    have := hpre x hx
    simpa using this
  · intro kenv h
    cases hres : resolveIdOrName store q with
    | none => exact hiff.mp hres
    | some keyMeta =>
      exfalso
      unfold getKey at h
      rw [hres] at h
      cases hback : kenv.backend with
      | keychain =>
        rw [hback] at h
        cases hv : kenv.vaultFind keyMeta.id with
        | ok v =>
          simp only [hv] at h
          by_cases hve : v == ""
          · rw [if_pos hve] at h; cases h
          · rw [if_neg hve] at h; cases h
        | err m => simp only [hv] at h; cases h
      | dpapi =>
        rw [hback] at h
        cases henc : keyMeta.encryptedApiKey with
        | some enc =>
          simp only [henc] at h
          cases hdec : kenv.dpapiDecrypt enc with
          | ok v => simp only [hdec] at h; cases h
          | error m => simp only [hdec] at h; cases h
        | none =>
          simp only [henc] at h
          cases hap : keyMeta.apiKey with
          | some a => simp only [hap] at h; cases h
          | none => simp only [hap] at h; cases h
      | file =>
        rw [hback] at h
        cases hap : keyMeta.apiKey with
        | some a => simp only [hap] at h; cases h
        | none => simp only [hap] at h; cases h
  · unfold setActiveKey resolveIdOrName
    cases hres : store.keys.find?
        (fun k => k.id == q || k.name == q) with
    | none => simp
    | some keyMeta => simp

/-- Witness for C9 (amended): the record resolved for `"x"` in
`idNameCollisionStore` does match by id or name. -/
theorem resolveIdOrName_first_match_witness :
    (ApiKeyMetadata.mk "a" "x" "https://api.iterable.com" "t" true none
        (some "11111111111111111111111111111111") none).id = "x" ∨
    (ApiKeyMetadata.mk "a" "x" "https://api.iterable.com" "t" true none
        (some "11111111111111111111111111111111") none).name = "x" :=
  ((resolveIdOrName_first_match idNameCollisionStore "x").1
    (ApiKeyMetadata.mk "a" "x" "https://api.iterable.com" "t" true none
      (some "11111111111111111111111111111111") none) (by decide)).1

/-! ## C10 — DPAPI getKey branch semantics -/

/-- The decrypt-failure message can never collide with the
key-not-found-in-storage message (their first characters differ). -/
lemma decrypt_msg_ne_not_found_msg (m idv : String) :
    "Failed to decrypt key with Windows DPAPI: " ++ m ≠
      "Key not found in storage for ID " ++ idv := by
  intro h
  have h' := congrArg String.data h
  rw [String.data_append, String.data_append] at h'
  have e1 : ("Failed to decrypt key with Windows DPAPI: ").data =
      'F' :: ("ailed to decrypt key with Windows DPAPI: ").data := rfl
  have e2 : ("Key not found in storage for ID ").data =
      'K' :: ("ey not found in storage for ID ").data := rfl
  rw [e1, e2, List.cons_append, List.cons_append] at h'
  injection h' with h1 h2
  exact absurd h1 (by decide)

/-- C10: on the DPAPI backend, a resolved record yields the DPAPI-decrypted
value when it carries `encryptedApiKey`; with no `encryptedApiKey` but a
plaintext `apiKey` field the plaintext is returned silently (legacy
fallback); and the key-not-found-in-storage error is thrown exactly when
the record carries neither field. -/
theorem getKey_dpapi_branch (kenv : KeyManagerEnv)
    (hb : kenv.backend = .dpapi) (store : KeyStore) (q : String)
    (keyMeta : ApiKeyMetadata)
    (hres : resolveIdOrName store q = some keyMeta) :
    (∀ enc v, keyMeta.encryptedApiKey = some enc →
      kenv.dpapiDecrypt enc = .ok v → getKey kenv store q = .ok (some v)) ∧
    (keyMeta.encryptedApiKey = none → ∀ a, keyMeta.apiKey = some a →
      getKey kenv store q = .ok (some a)) ∧
    (getKey kenv store q =
        .error ("Key not found in storage for ID " ++ keyMeta.id) ↔
      keyMeta.encryptedApiKey = none ∧ keyMeta.apiKey = none) := by
  unfold getKey
  rw [hres, hb]
  refine ⟨?_, ?_, ?_⟩
  · intro enc v henc hdec
    simp [henc, hdec]
  · intro hencn a hap
    simp [hencn, hap]
  · constructor
    · intro h
      cases henc : keyMeta.encryptedApiKey with
      | some enc =>
        exfalso
        simp only [henc] at h
        cases hdec : kenv.dpapiDecrypt enc with
        | ok v => simp only [hdec] at h; cases h
        | error m =>
          simp only [hdec] at h
          have := Except.error.inj h
          exact decrypt_msg_ne_not_found_msg m keyMeta.id this
      | none =>
        cases hap : keyMeta.apiKey with
        | some a => simp only [henc, hap] at h; cases h
        | none => exact ⟨rfl, rfl⟩
    · rintro ⟨h1, h2⟩
      simp [h1, h2]

/-- Witness for C10: a DPAPI-backend store whose record carries an
encrypted secret returns the decrypted value. -/
theorem getKey_dpapi_branch_witness :
    getKey dpapiKenv (KeyStore.mk [ApiKeyMetadata.mk "w" "win"
      "https://api.iterable.com" "t" true none none (some "ENC")] 1) "w" =
      .ok (some "ENC") :=
  (getKey_dpapi_branch dpapiKenv rfl
    (KeyStore.mk [ApiKeyMetadata.mk "w" "win"
      "https://api.iterable.com" "t" true none none (some "ENC")] 1) "w"
    (ApiKeyMetadata.mk "w" "win"
      "https://api.iterable.com" "t" true none none (some "ENC"))
    (by decide)).1 "ENC" "ENC" rfl rfl

end IterableMcp
